import Mathlib

/-!
Shallow embedding of the Qdrant vector-database client layer
(`src/packages/core/src/vectordb/qdrant-vectordb.ts`, containing the
`QdrantVectorDatabase` class and the `BM25Tokenizer` class).

Modelling conventions:
* JavaScript numbers used as counters, sizes and limits are `Nat`;
  dense-vector components (opaque floats that the client only passes
  through) are `Rat`.
* The external wink-nlp tokenizer is a parameter of type
  `String → List String` (contract: `tokenize(text)` returns the ordered
  sequence of normalized word tokens).
* Remote calls are modelled by explicit environments ("worlds") supplying
  the remote responses, and functions return the payloads they would send
  plus an event trace of the calls they issue.
* Fallible paths return `Except String` carrying the thrown message;
  `e.message.includes(pat)` is modelled by a character-list substring test.
-/

/-- Boolean test that `pat` is a leading segment of `s` (character lists). -/
def charsLeading : List Char → List Char → Bool
  | [], _ => true
  | _ :: _, [] => false
  | p :: ps, c :: cs => p == c && charsLeading ps cs

/-- Boolean substring test on character lists: some suffix of `s` starts with `pat`. -/
def charsContain (pat : List Char) : List Char → Bool
  | [] => charsLeading pat []
  | c :: rest => charsLeading pat (c :: rest) || charsContain pat rest

/-- Model of JavaScript `msg.includes(pat)`. -/
def messageIncludes (msg pat : String) : Bool :=
  charsContain pat.data msg.data

/-- Model of JavaScript `s.startsWith(pat)`. -/
def strStartsWith (s pat : String) : Bool :=
  charsLeading pat.data s.data

/-- Model of the guard `!text || text.trim().length === 0`: the text is empty
or consists only of whitespace. -/
def isBlank (text : String) : Bool :=
  text.data.all Char.isWhitespace

/-- JavaScript `x || d` applied to an optional numeric config field
(`undefined` and `0` are falsy). -/
def jsOrNat : Option Nat → Nat → Nat
  | none, d => d
  | some v, d => if v = 0 then d else v

/-- JavaScript `x || false` applied to an optional boolean config field. -/
def jsOrBool : Option Bool → Bool
  | none => false
  | some b => b

/-- JavaScript `x || d` applied to an optional fractional config field
(`undefined` and `0` are falsy). -/
def jsOrRat : Option Rat → Rat → Rat
  | none, d => d
  | some v, d => if v = 0 then d else v

/-!  ## Retry wrapper (`withRetry`, qdrant-vectordb.ts lines 122-153)  -/

/-- Terminal ("business logic") error test of `withRetry`:
`lastError.message.includes('already exists') || lastError.message.includes('not found')`. -/
def isTerminalError (msg : String) : Bool :=
  messageIncludes msg "already exists" || messageIncludes msg "not found"

/-- Body of `withRetry`'s `for` loop. `op n` is the outcome of the n-th attempt
of the wrapped operation, `attempts` is the list of attempt numbers still to
run, `delay` the current backoff delay and `last` the last observed error.
The returned list collects the delays actually slept, in order. The `[]` case
is the `throw lastError!` after the loop (reachable only when `maxRetries = 0`,
where the JS code throws an undefined error). -/
def withRetryGo (op : Nat → Except String α) (maxRetries : Nat) :
    List Nat → Nat → Option String → List Nat × Except String α
  | [], _, last => ([], .error (last.getD "operation failed"))
  | attempt :: rest, delay, _ =>
    match op attempt with
    | .ok v => ([], .ok v)
    | .error e =>
      if isTerminalError e || attempt == maxRetries then ([], .error e)
      else
        let r := withRetryGo op maxRetries rest (delay * 2) (some e)
        (delay :: r.1, r.2)

/-- Model of `withRetry(operation, name, maxRetries, initialDelay)`: attempts
run for `attempt = 1 .. maxRetries`, sleeping and doubling the delay between
non-terminal failures. Returns the slept delays and the final outcome. -/
def withRetry (op : Nat → Except String α) (maxRetries initialDelay : Nat) :
    List Nat × Except String α :=
  withRetryGo op maxRetries (List.range' 1 maxRetries) initialDelay none

/-!  ## Vocabulary store and sparse encoding (`BM25Tokenizer`)  -/

/-- In-memory state of a `BM25Tokenizer`: the `vocabulary : Map<string, number>`
(as an insertion-ordered association list) and the `nextIndex` counter. -/
structure VocabState where
  vocabulary : List (String × Nat)
  nextIndex : Nat
deriving DecidableEq

/-- Fresh tokenizer state (`new Map()`, `nextIndex = 0`). -/
def emptyVocab : VocabState := ⟨[], 0⟩

/-- Model of `Map.get` on the insertion-ordered association list. -/
def vlookup (w : String) : List (String × Nat) → Option Nat
  | [] => none
  | (u, i) :: rest => if u = w then some i else vlookup w rest

/-- Get-or-assign of a vocabulary index for one term
(`if (!this.vocabulary.has(word)) { this.vocabulary.set(word, this.nextIndex++); }`):
returns the term's index and the updated state. -/
def indexOfTerm (w : String) (s : VocabState) : Nat × VocabState :=
  match vlookup w s.vocabulary with
  | some i => (i, s)
  | none => (s.nextIndex, ⟨s.vocabulary ++ [(w, s.nextIndex)], s.nextIndex + 1⟩)

/-- One step of the term-frequency loop
(`termFreqs.set(token, (termFreqs.get(token) || 0) + 1)`) on an
insertion-ordered association list (JS `Map` keeps first-insertion order). -/
def bump : List (String × Nat) → String → List (String × Nat)
  | [], t => [(t, 1)]
  | (u, c) :: rest, t => if u = t then (u, c + 1) :: rest else (u, c) :: bump rest t

/-- The `termFreqs` map built from the token stream, as an association list in
insertion order of first occurrence. -/
def termFreqs (tokens : List String) : List (String × Nat) :=
  tokens.foldl bump []

/-- Distinct elements of `ts` not in `seen`, in order of first occurrence. -/
def firstOccAux (seen : List String) : List String → List String
  | [] => []
  | t :: ts => if t ∈ seen then firstOccAux seen ts else t :: firstOccAux (t :: seen) ts

/-- Distinct tokens of the stream in order of first occurrence. -/
def firstOccurrences (tokens : List String) : List String :=
  firstOccAux [] tokens

/-- A sparse vector payload: parallel `indices` / `values` sequences. -/
structure SparseVec where
  indices : List Nat
  values : List Nat
deriving DecidableEq

/-- The `for (const [word, tf] of termFreqs.entries())` loop of
`generateSparseVector`: resolve or assign each distinct token's vocabulary
index and push one `(index, tf)` pair per distinct token. -/
def assignIndices : List (String × Nat) → VocabState → SparseVec × VocabState
  | [], s => (⟨[], []⟩, s)
  | (w, tf) :: rest, s =>
    let i := (indexOfTerm w s).1
    let s1 := (indexOfTerm w s).2
    let r := assignIndices rest s1
    (⟨i :: r.1.indices, tf :: r.1.values⟩, r.2)

/-- Model of `BM25Tokenizer.generateSparseVector(text)` (lines 826-859):
blank text short-circuits to an empty sparse vector without invoking the
tokenizer; otherwise term frequencies of the tokenizer output are computed and
converted to `(index, value)` pairs through the vocabulary store. -/
def generateSparseVector (tokenize : String → List String) (text : String)
    (s : VocabState) : SparseVec × VocabState :=
  if isBlank text then (⟨[], []⟩, s)
  else
    let tf := termFreqs (tokenize text)
    if tf = [] then (⟨[], []⟩, s)
    else assignIndices tf s

/-- Well-formedness invariant of a vocabulary store state: every assigned
index is below the counter, terms are not duplicated, and no index is shared
by two terms. It holds for the fresh state and is preserved by every
operation, so every reachable tokenizer state satisfies it. -/
def WFVocab (s : VocabState) : Prop :=
  (∀ p ∈ s.vocabulary, p.2 < s.nextIndex) ∧
  (s.vocabulary.map Prod.fst).Nodup ∧
  (s.vocabulary.map Prod.snd).Nodup

instance : DecidablePred WFVocab := fun s => by
  unfold WFVocab; infer_instance

/-- Persisted vocabulary snapshot
(`{ vocabulary: Object.fromEntries(...), nextIndex, timestamp }`). -/
structure VocabSnapshot where
  vocabulary : List (String × Nat)
  nextIndex : Nat
  timestamp : String
deriving DecidableEq

/-- Snapshot written by `saveVocabulary` (lines 888-912). -/
def saveSnapshot (s : VocabState) (timestamp : String) : VocabSnapshot :=
  ⟨s.vocabulary, s.nextIndex, timestamp⟩

/-- What `loadVocabulary` finds on disk: no file, an unreadable/corrupt file
(read or parse throws), or a parsed snapshot. -/
inductive VocabFile
  | missing
  | unreadable
  | file (snap : VocabSnapshot)

/-- Model of `BM25Tokenizer.loadVocabulary` (lines 865-883) as run by the
constructor on a fresh state: no configured path or no file keeps the empty
table and counter 0; an unreadable or corrupt file falls back to the empty
table and counter 0 (the catch branch, which only logs a warning); a parsed
snapshot installs its table and `vocabData.nextIndex || this.vocabulary.size`. -/
def loadVocabulary (vocabularyPath : Option String) (disk : VocabFile) : VocabState :=
  match vocabularyPath with
  | none => emptyVocab
  | some _ =>
    match disk with
    | .missing => emptyVocab
    | .unreadable => emptyVocab
    | .file snap =>
      ⟨snap.vocabulary,
       if snap.nextIndex = 0 then (snap.vocabulary.map Prod.fst).dedup.length
       else snap.nextIndex⟩

/-- Model of `BM25Tokenizer.saveVocabulary` (lines 888-912). `writeOk` tells
whether the directory creation and file write succeed; the function is total
because every disk error is caught inside it and only logged. Returns the
snapshot durably written, if any. -/
def saveVocabulary (vocabularyPath : Option String) (writeOk : Bool)
    (s : VocabState) (timestamp : String) : Option VocabSnapshot :=
  match vocabularyPath with
  | none => none
  | some _ => if writeOk then some (saveSnapshot s timestamp) else none

/-!  ## Collection creation payloads (`createCollection`, lines 156-215)  -/

/-- Optional HNSW options of `QdrantConfig.indexing.hnsw`. -/
structure QdrantHNSWConfig where
  m : Option Nat
  ef_construct : Option Nat
  full_scan_threshold : Option Nat
  on_disk : Option Bool
deriving DecidableEq

/-- Quantization type of `QdrantQuantizationConfig.type`. -/
inductive QuantType
  | scalar
  | binary
  | product
deriving DecidableEq

/-- Optional quantization options of `QdrantConfig.quantization`. -/
structure QdrantQuantizationConfig where
  type : QuantType
  quantile : Option Rat
  always_ram : Option Bool
deriving DecidableEq

/-- The part of `QdrantConfig` consumed by `createCollection`:
`config.indexing?.hnsw` and `config.quantization`. -/
structure QdrantCreateConfig where
  hnsw : Option QdrantHNSWConfig
  quantization : Option QdrantQuantizationConfig
deriving DecidableEq

/-- The `hnsw_config` block of the payload. -/
structure HnswPayload where
  m : Nat
  ef_construct : Nat
  full_scan_threshold : Nat
  on_disk : Bool
deriving DecidableEq

/-- The `quantization_config` block of the payload. -/
inductive QuantPayload
  | scalar (type : String) (quantile : Rat) (always_ram : Bool)
  | binary (always_ram : Bool)
deriving DecidableEq

/-- The `vectors` block of the payload. -/
structure VectorPayload where
  size : Nat
  distance : String
  hnsw_config : Option HnswPayload
  quantization_config : Option QuantPayload
deriving DecidableEq

/-- The collection-configuration payload passed to the remote create call. -/
structure CollectionPayload where
  vectors : VectorPayload
  shard_number : Nat
  replication_factor : Nat
deriving DecidableEq

/-- The `hnsw_config` block built when `config.indexing?.hnsw` is present:
each missing (or zero) field falls back to its default
(`hnswConfig.m || 16`, `ef_construct || 100`, `full_scan_threshold || 10000`,
`on_disk || false`). -/
def buildHnswPayload (h : QdrantHNSWConfig) : HnswPayload :=
  ⟨jsOrNat h.m 16, jsOrNat h.ef_construct 100,
   jsOrNat h.full_scan_threshold 10000, jsOrBool h.on_disk⟩

/-- The `quantization_config` block built when `config.quantization` is
present (`scalar` and `binary` types only; `product` sets no block). -/
def buildQuantPayload (q : QdrantQuantizationConfig) : Option QuantPayload :=
  match q.type with
  | .scalar => some (.scalar "int8" (jsOrRat q.quantile (99 / 100)) (jsOrBool q.always_ram))
  | .binary => some (.binary (jsOrBool q.always_ram))
  | .product => none

/-- Model of `createCollection(collectionName, dimension)`: the
collection-configuration payload sent to the remote service. The
`hnsw_config` block is attached only when `config.indexing?.hnsw` is
supplied, and the `quantization_config` block only when
`config.quantization` is supplied. -/
def createCollection (cfg : QdrantCreateConfig) (dimension : Nat) : CollectionPayload :=
  ⟨⟨dimension, "Cosine", cfg.hnsw.map buildHnswPayload,
    cfg.quantization.bind buildQuantPayload⟩, 1, 1⟩

/-!  ## Existence probe (`hasCollection`, lines 319-328)  -/

/-- Collection metadata returned by a successful `getCollection` probe. -/
structure CollectionInfo where
  supportsSparse : Bool
deriving DecidableEq

/-- Model of `hasCollection(collectionName)`: the `getCollection` probe either
succeeds with metadata or throws; the catch branch turns every failure into
`false`, so the function is total and never raises. -/
def hasCollection (probeResult : Except String CollectionInfo) : Bool :=
  match probeResult with
  | .ok _ => true
  | .error _ => false

/-!  ## Dense-only search (`search`, lines 527-565)  -/

/-- Native Qdrant filter objects built by `buildExtensionFilter` /
`buildPathFilter`; the search paths carry them through opaquely. -/
inductive QdrantFilter
  | empty
  | mustMatchAny (key : String) (values : List String)
  | mustMatchValue (key : String) (value : String)
deriving DecidableEq

/-- The `vector` field of a search request: either the plain query vector or
a named-subspace query `{name, vector}`. -/
inductive SearchVecPayload
  | plain (v : List Rat)
  | named (name : String) (v : List Rat)
deriving DecidableEq

/-- The search request payload sent by `search`. -/
structure SearchRequestPayload where
  vector : SearchVecPayload
  limit : Nat
  with_payload : Bool
  filter : Option QdrantFilter
deriving DecidableEq

/-- The `isHybridCollection` test of `search`:
`collectionName.startsWith('hybrid_')`. -/
def isHybridCollection (collectionName : String) : Bool :=
  strStartsWith collectionName "hybrid_"

/-- The single search request built by `search(collectionName, queryVector,
options)`: a hybrid collection is addressed through the named `dense`
subspace, otherwise the plain query vector is used; the limit is
`options?.topK || 10`. -/
def buildSearchRequest (collectionName : String) (queryVector : List Rat)
    (topK : Option Nat) (filt : Option QdrantFilter) : SearchRequestPayload :=
  ⟨if isHybridCollection collectionName then .named "dense" queryVector
    else .plain queryVector,
   jsOrNat topK 10, true, filt⟩

/-- The list of similarity queries `search` issues to the remote service:
exactly the one call `this.client.search(collectionName, searchRequest)`. -/
def search (collectionName : String) (queryVector : List Rat)
    (topK : Option Nat) (filt : Option QdrantFilter) : List SearchRequestPayload :=
  [buildSearchRequest collectionName queryVector topK filt]

/-!  ## Hybrid search (`hybridSearch`, lines 567-673)  -/

/-- The `data` field of a `HybridSearchRequest`: a dense query vector or a
textual payload. -/
inductive QueryData
  | vec (v : List Rat)
  | text (t : String)
deriving DecidableEq

/-- A hybrid search request (`anns_field`, `data`, `limit`). -/
structure HybridSearchRequest where
  anns_field : String
  data : QueryData
  limit : Nat
deriving DecidableEq

/-- The `query` field of a prefetch entry. -/
inductive PrefetchVec
  | dense (v : List Rat)
  | sparse (q : SparseVec)
deriving DecidableEq

/-- One prefetch entry of the fused query (its `using` field is `usingName`). -/
structure PrefetchQuery where
  query : PrefetchVec
  usingName : String
  limit : Nat
  with_payload : Bool
deriving DecidableEq

/-- The classification `request.anns_field === 'vector' || request.anns_field === 'dense'`. -/
def isDenseVector (r : HybridSearchRequest) : Bool :=
  r.anns_field == "vector" || r.anns_field == "dense"

/-- The dense query vector extracted by
`Array.isArray(request.data) ? request.data : []`. -/
def denseDataOf : QueryData → List Rat
  | .vec v => v
  | .text _ => []

/-- The query text extracted by
`typeof request.data === 'string' ? request.data : ''`. -/
def textDataOf : QueryData → String
  | .text t => t
  | .vec _ => ""

/-- The prefetch entry built for one search request, threading the
tokenizer's vocabulary state (the lexical branch encodes the request's text
through `generateSparseVector`). -/
def prefetchOf (tokenize : String → List String) (r : HybridSearchRequest)
    (s : VocabState) : PrefetchQuery × VocabState :=
  if isDenseVector r then
    (⟨.dense (denseDataOf r.data), "dense", max (r.limit * 3) 100, true⟩, s)
  else
    let e := generateSparseVector tokenize (textDataOf r.data) s
    (⟨.sparse e.1, "sparse", max (r.limit * 3) 100, true⟩, e.2)

/-- The `for` loop of `hybridSearch` building `prefetchQueries`. -/
def buildPrefetchQueries (tokenize : String → List String) :
    List HybridSearchRequest → VocabState → List PrefetchQuery × VocabState
  | [], s => ([], s)
  | r :: rest, s =>
    let p := prefetchOf tokenize r s
    let ps := buildPrefetchQueries tokenize rest p.2
    (p.1 :: ps.1, ps.2)

/-- The single fused query request `hybridSearch` submits. -/
structure HybridQueryRequest where
  prefetch : List PrefetchQuery
  fusion : String
  limit : Nat
  with_payload : Bool
  filter : Option QdrantFilter
deriving DecidableEq

/-- Model of `hybridSearch(collectionName, searchRequests, options)`: an empty
request list issues no remote call (`none`); otherwise the per-request
prefetches are fused into one query with `fusion: 'rrf'`, limit
`options?.limit || 10` and the caller's filter carried through. Returns the
submitted query (if any) and the tokenizer state after query-side encoding. -/
def hybridSearch (tokenize : String → List String)
    (searchRequests : List HybridSearchRequest) (optLimit : Option Nat)
    (optFilter : Option QdrantFilter) (s : VocabState) :
    Option HybridQueryRequest × VocabState :=
  if searchRequests = [] then (none, s)
  else
    let ps := buildPrefetchQueries tokenize searchRequests s
    (some ⟨ps.1, "rrf", jsOrNat optLimit 10, true, optFilter⟩, ps.2)

/-!  ## Hybrid insert (`insertHybrid`, lines 381-512)  -/

/-- A document passed to `insertHybrid`. `vector = none` models a value that
is not an array (`!Array.isArray(doc.vector)`). -/
structure VectorDocument where
  id : String
  vector : Option (List Rat)
  content : String
  relativePath : String
  startLine : Nat
  endLine : Nat
  fileExtension : String
  metadata : List (String × String)
deriving DecidableEq

/-- An upsert point built by `insertHybrid` (named dense + sparse vectors and
the flattened payload, its metadata without the `sparseVector` key). -/
structure HybridPoint where
  id : String
  dense : List Rat
  sparse : SparseVec
  content : String
  relativePath : String
  startLine : Nat
  endLine : Nat
  fileExtension : String
  metadata : List (String × String)
deriving DecidableEq

instance {ε α : Type} [DecidableEq ε] [DecidableEq α] : DecidableEq (Except ε α) :=
  fun a b =>
    match a, b with
    | .ok x, .ok y =>
      if h : x = y then isTrue (by rw [h]) else isFalse (by intro hh; cases hh; exact h rfl)
    | .error x, .error y =>
      if h : x = y then isTrue (by rw [h]) else isFalse (by intro hh; cases hh; exact h rfl)
    | .ok _, .error _ => isFalse (by intro h; cases h)
    | .error _, .ok _ => isFalse (by intro h; cases h)

/-- The remote responses an `insertHybrid` run observes: the existence probe's
outcome, whether the collection metadata lists the `sparse` vector space, the
upsert response (`Except` for a thrown call, `Option String` for its possibly
missing `status`), and whether the vocabulary snapshot write succeeds. -/
structure InsertWorld where
  collectionExists : Bool
  supportsSparse : Bool
  upsertResult : Except String (Option String)
  saveOk : Bool
deriving DecidableEq

/-- The calls an `insertHybrid` run issues, in order. `saveVocab` records
whether the (local, error-swallowing) snapshot write succeeded. -/
inductive InsertEvent
  | existenceProbe
  | metadataFetch
  | upsertCall
  | countCheck
  | saveVocab (ok : Bool)
deriving DecidableEq

/-- The `documents.map((doc, index) => ...)` body of `insertHybrid`: validate
each document's dense vector (non-array, then empty), then encode its content
into a sparse vector (mutating the tokenizer state), and build the upsert
point. A validation throw aborts the batch but keeps the vocabulary updates
of the documents already encoded. -/
def buildHybridPoints (tokenize : String → List String) :
    Nat → List VectorDocument → VocabState → VocabState × Except String (List HybridPoint)
  | _, [], s => (s, .ok [])
  | idx, doc :: rest, s =>
    match doc.vector with
    | none => (s, .error ("Document " ++ toString idx ++ " (" ++ doc.id ++ ") has non-array vector"))
    | some v =>
      if v = [] then
        (s, .error ("Document " ++ toString idx ++ " (" ++ doc.id ++ ") has empty vector"))
      else
        let e := generateSparseVector tokenize doc.content s
        let r := buildHybridPoints tokenize (idx + 1) rest e.2
        match r.2 with
        | .error msg => (r.1, .error msg)
        | .ok ps =>
          (r.1, .ok (⟨doc.id, v, e.1, doc.content, doc.relativePath, doc.startLine,
                     doc.endLine, doc.fileExtension,
                     doc.metadata.filter (fun kv => kv.1 != "sparseVector")⟩ :: ps))

/-- Model of `insertHybrid(collectionName, documents)`: returns the event
trace of the calls issued, the tokenizer state afterwards, and the outcome.
An empty batch returns early; then the existence probe, the metadata fetch
with its sparse-support check, per-document validation and encoding, the
upsert, and - only when the upsert response status is `acknowledged` or
`completed` - the points-count check (whose failure is caught and only
logged) and the vocabulary save (which swallows its own errors). An
unexpected upsert response is only logged and the call still succeeds. No
step of this method runs under the retry wrapper. -/
def insertHybrid (collectionName : String) (w : InsertWorld)
    (tokenize : String → List String) (documents : List VectorDocument)
    (s : VocabState) : List InsertEvent × VocabState × Except String Unit :=
  if documents = [] then ([], s, .ok ())
  else if w.collectionExists = false then
    ([.existenceProbe], s,
     .error ("Collection " ++ collectionName ++ " does not exist"))
  else if w.supportsSparse = false then
    ([.existenceProbe, .metadataFetch], s,
     .error ("Collection " ++ collectionName ++
       " exists but does not support sparse vectors. Please use createHybridCollection() or delete and recreate the collection."))
  else
    let r := buildHybridPoints tokenize 0 documents s
    match r.2 with
    | .error msg => ([.existenceProbe, .metadataFetch], r.1, .error msg)
    | .ok _points =>
      match w.upsertResult with
      | .error e => ([.existenceProbe, .metadataFetch, .upsertCall], r.1, .error e)
      | .ok st =>
        if st = some "acknowledged" ∨ st = some "completed" then
          ([.existenceProbe, .metadataFetch, .upsertCall, .countCheck, .saveVocab w.saveOk],
           r.1, .ok ())
        else
          ([.existenceProbe, .metadataFetch, .upsertCall], r.1, .ok ())

/-!  ## Lemmas: vocabulary lookup and index assignment  -/

theorem vlookup_append_of_some {w : String} {l1 : List (String × Nat)} {i : Nat}
    (l2 : List (String × Nat)) (h : vlookup w l1 = some i) :
    vlookup w (l1 ++ l2) = some i := by
  induction l1 with
  | nil => simp [vlookup] at h
  | cons p rest ih =>
    obtain ⟨u, j⟩ := p
    by_cases hu : u = w
    · simp [vlookup, hu] at h ⊢; exact h
    · simp [vlookup, hu] at h ⊢; exact ih h

theorem vlookup_append_of_none {w : String} {l1 : List (String × Nat)}
    (l2 : List (String × Nat)) (h : vlookup w l1 = none) :
    vlookup w (l1 ++ l2) = vlookup w l2 := by
  induction l1 with
  | nil => simp
  | cons p rest ih =>
    obtain ⟨u, j⟩ := p
    by_cases hu : u = w
    · simp [vlookup, hu] at h
    · simp [vlookup, hu] at h ⊢; exact ih h

theorem vlookup_none_iff {w : String} {l : List (String × Nat)} :
    vlookup w l = none ↔ w ∉ l.map Prod.fst := by
  induction l with
  | nil => simp [vlookup]
  | cons p rest ih =>
    obtain ⟨u, j⟩ := p
    by_cases hu : u = w
    · simp [vlookup, hu]
    · simp [vlookup, hu, ih, Ne.symm hu]

theorem vlookup_mem {w : String} {l : List (String × Nat)} {i : Nat}
    (h : vlookup w l = some i) : (w, i) ∈ l := by
  induction l with
  | nil => simp [vlookup] at h
  | cons p rest ih =>
    obtain ⟨u, j⟩ := p
    by_cases hu : u = w
    · simp [vlookup, hu] at h; simp [hu, h]
    · simp [vlookup, hu] at h; simp [ih h]

theorem indexOfTerm_preserve {u : String} {i : Nat} (w : String) (s : VocabState)
    (h : vlookup u s.vocabulary = some i) :
    vlookup u ((indexOfTerm w s).2).vocabulary = some i := by
  cases hv : vlookup w s.vocabulary with
  | some j => simp [indexOfTerm, hv, h]
  | none => simpa [indexOfTerm, hv] using vlookup_append_of_some _ h

theorem indexOfTerm_self (w : String) (s : VocabState) :
    vlookup w ((indexOfTerm w s).2).vocabulary = some (indexOfTerm w s).1 := by
  cases hv : vlookup w s.vocabulary with
  | some j => simp [indexOfTerm, hv]
  | none =>
    have := vlookup_append_of_none [(w, s.nextIndex)] hv
    simp [indexOfTerm, hv, this, vlookup]

theorem indexOfTerm_nextIndex_le (w : String) (s : VocabState) :
    s.nextIndex ≤ ((indexOfTerm w s).2).nextIndex := by
  cases hv : vlookup w s.vocabulary with
  | some j => simp [indexOfTerm, hv]
  | none => simp [indexOfTerm, hv]

theorem indexOfTerm_lookup_cases {u : String} {i : Nat} (w : String) (s : VocabState)
    (h : vlookup u ((indexOfTerm w s).2).vocabulary = some i) :
    vlookup u s.vocabulary = some i ∨ s.nextIndex ≤ i := by
  cases hv : vlookup w s.vocabulary with
  | some j => simp [indexOfTerm, hv] at h; exact Or.inl h
  | none =>
    simp only [indexOfTerm, hv] at h
    cases hu : vlookup u s.vocabulary with
    | some j =>
      rw [vlookup_append_of_some _ hu] at h
      injection h with hji
      exact Or.inl (by rw [hji])
    | none =>
      rw [vlookup_append_of_none _ hu] at h
      by_cases huw : w = u
      · simp [vlookup, huw] at h; omega
      · simp [vlookup, huw] at h

theorem indexOfTerm_WF {s : VocabState} (w : String) (h : WFVocab s) :
    WFVocab ((indexOfTerm w s).2) := by
  obtain ⟨hbound, hkeys, hvals⟩ := h
  cases hv : vlookup w s.vocabulary with
  | some j => simpa [indexOfTerm, hv] using ⟨hbound, hkeys, hvals⟩
  | none =>
    have hw : w ∉ s.vocabulary.map Prod.fst := vlookup_none_iff.mp hv
    refine ⟨?_, ?_, ?_⟩ <;> simp only [indexOfTerm, hv]
    · intro p hp
      rcases List.mem_append.mp hp with hp | hp
      · exact Nat.lt_succ_of_lt (hbound p hp)
      · simp at hp
        subst hp
        simp
    · rw [List.map_append, List.nodup_append]
      refine ⟨hkeys, by simp, ?_⟩
      intro a ha hb
      simp at hb
      exact hw (hb ▸ ha)
    · rw [List.map_append, List.nodup_append]
      refine ⟨hvals, by simp, ?_⟩
      intro a ha hb
      simp at hb
      subst hb
      rcases List.mem_map.mp ha with ⟨p, hp, hps⟩
      exact absurd (hps ▸ hbound p hp) (lt_irrefl _)

theorem assignIndices_preserve {u : String} {i : Nat} :
    ∀ (pairs : List (String × Nat)) (s : VocabState),
    vlookup u s.vocabulary = some i →
    vlookup u ((assignIndices pairs s).2).vocabulary = some i := by
  intro pairs
  induction pairs with
  | nil => intro s h; simpa [assignIndices] using h
  | cons p rest ih =>
    obtain ⟨w, tf⟩ := p
    intro s h
    simpa [assignIndices] using ih _ (indexOfTerm_preserve w s h)

theorem assignIndices_WF :
    ∀ (pairs : List (String × Nat)) (s : VocabState),
    WFVocab s → WFVocab ((assignIndices pairs s).2) := by
  intro pairs
  induction pairs with
  | nil => intro s h; simpa [assignIndices] using h
  | cons p rest ih =>
    obtain ⟨w, tf⟩ := p
    intro s h
    simpa [assignIndices] using ih _ (indexOfTerm_WF w h)

theorem assignIndices_nextIndex_le :
    ∀ (pairs : List (String × Nat)) (s : VocabState),
    s.nextIndex ≤ ((assignIndices pairs s).2).nextIndex := by
  intro pairs
  induction pairs with
  | nil => intro s; simp [assignIndices]
  | cons p rest ih =>
    obtain ⟨w, tf⟩ := p
    intro s
    simpa [assignIndices] using le_trans (indexOfTerm_nextIndex_le w s) (ih _)

theorem assignIndices_lookup_cases {u : String} {i : Nat} :
    ∀ (pairs : List (String × Nat)) (s : VocabState),
    vlookup u ((assignIndices pairs s).2).vocabulary = some i →
    vlookup u s.vocabulary = some i ∨ s.nextIndex ≤ i := by
  intro pairs
  induction pairs with
  | nil => intro s h; simp [assignIndices] at h; exact Or.inl h
  | cons p rest ih =>
    obtain ⟨w, tf⟩ := p
    intro s h
    simp only [assignIndices] at h
    rcases ih _ h with h1 | h1
    · rcases indexOfTerm_lookup_cases w s h1 with h2 | h2
      · exact Or.inl h2
      · exact Or.inr h2
    · exact Or.inr (le_trans (indexOfTerm_nextIndex_le w s) h1)

theorem assignIndices_values :
    ∀ (pairs : List (String × Nat)) (s : VocabState),
    ((assignIndices pairs s).1).values = pairs.map Prod.snd := by
  intro pairs
  induction pairs with
  | nil => intro s; simp [assignIndices]
  | cons p rest ih =>
    obtain ⟨w, tf⟩ := p
    intro s
    simp [assignIndices, ih]

theorem assignIndices_length :
    ∀ (pairs : List (String × Nat)) (s : VocabState),
    ((assignIndices pairs s).1).indices.length = pairs.length := by
  intro pairs
  induction pairs with
  | nil => intro s; simp [assignIndices]
  | cons p rest ih =>
    obtain ⟨w, tf⟩ := p
    intro s
    simp [assignIndices, ih]

theorem assignIndices_get :
    ∀ (pairs : List (String × Nat)) (s : VocabState) (k : Nat) (w : String) (c : Nat),
    pairs[k]? = some (w, c) →
    ((assignIndices pairs s).1).indices[k]? =
      vlookup w ((assignIndices pairs s).2).vocabulary := by
  intro pairs
  induction pairs with
  | nil => intro s k w c h; simp at h
  | cons p rest ih =>
    obtain ⟨w0, c0⟩ := p
    intro s k w c h
    match k with
    | 0 =>
      simp at h
      obtain ⟨hw, hc⟩ := h
      simp only [assignIndices]
      have h1 := indexOfTerm_self w0 s
      have h2 := assignIndices_preserve rest ((indexOfTerm w0 s).2) h1
      rw [← hw]
      simp [h2]
    | k + 1 =>
      simp only [assignIndices]
      simpa using ih _ k w c (by simpa using h)

/-!  ## Lemmas: term-frequency map in first-occurrence order  -/

theorem mem_firstOccAux {u : String} :
    ∀ (ts seen : List String), u ∈ firstOccAux seen ts → u ∉ seen := by
  intro ts
  induction ts with
  | nil => intro seen h; simp [firstOccAux] at h
  | cons t ts ih =>
    intro seen h
    by_cases ht : t ∈ seen
    · exact ih seen (by simpa [firstOccAux, ht] using h)
    · simp only [firstOccAux, if_neg ht] at h
      rcases List.mem_cons.mp h with rfl | h
      · exact ht
      · have h2 := ih _ h
        intro hu
        exact h2 (List.mem_cons_of_mem _ hu)

theorem firstOccAux_congr :
    ∀ (ts s1 s2 : List String),
    (∀ x, x ∈ s1 ↔ x ∈ s2) → firstOccAux s1 ts = firstOccAux s2 ts := by
  intro ts
  induction ts with
  | nil => intro s1 s2 _; simp [firstOccAux]
  | cons t ts ih =>
    intro s1 s2 h
    by_cases ht : t ∈ s1
    · simp only [firstOccAux, if_pos ht, if_pos ((h t).mp ht)]
      exact ih s1 s2 h
    · have ht2 : t ∉ s2 := fun hc => ht ((h t).mpr hc)
      simp only [firstOccAux, if_neg ht, if_neg ht2]
      refine congrArg (List.cons t) (ih _ _ ?_)
      intro x
      simp [h x]

theorem firstOccAux_nodup : ∀ (ts seen : List String), (firstOccAux seen ts).Nodup := by
  intro ts
  induction ts with
  | nil => intro seen; simp [firstOccAux]
  | cons t ts ih =>
    intro seen
    by_cases ht : t ∈ seen
    · simpa [firstOccAux, ht] using ih seen
    · simp only [firstOccAux, if_neg ht]
      refine List.nodup_cons.mpr ⟨?_, ih _⟩
      intro hc
      exact (mem_firstOccAux ts _ hc) (by simp)

theorem bump_of_not_mem {t : String} :
    ∀ (l : List (String × Nat)), t ∉ l.map Prod.fst → bump l t = l ++ [(t, 1)] := by
  intro l
  induction l with
  | nil => intro _; simp [bump]
  | cons p rest ih =>
    obtain ⟨u, c⟩ := p
    intro h
    simp only [List.map_cons, List.mem_cons] at h
    push_neg at h
    obtain ⟨h1, h2⟩ := h
    simp [bump, if_neg (Ne.symm h1), ih h2]

theorem bump_of_mem {t : String} :
    ∀ (l : List (String × Nat)), (l.map Prod.fst).Nodup → t ∈ l.map Prod.fst →
    bump l t = l.map (fun p => if p.1 = t then (p.1, p.2 + 1) else p) := by
  intro l
  induction l with
  | nil => intro _ h; simp at h
  | cons p rest ih =>
    obtain ⟨u, c⟩ := p
    intro hnd h
    simp only [List.map_cons, List.nodup_cons] at hnd
    obtain ⟨hu, hnd⟩ := hnd
    by_cases hut : u = t
    · subst hut
      have hmap : rest.map (fun p => if p.1 = u then (p.1, p.2 + 1) else p) = rest := by
        have h0 : rest.map (fun p => if p.1 = u then (p.1, p.2 + 1) else p) =
            rest.map id := by
          apply List.map_congr_left
          intro a ha
          have hne : a.1 ≠ u := fun hc => hu (hc ▸ List.mem_map_of_mem Prod.fst ha)
          simp [hne]
        simpa using h0
      simp [bump, hmap]
    · have h3 : t ∈ rest.map Prod.fst := by
        rcases List.mem_cons.mp h with h4 | h4
        · exact absurd h4.symm hut
        · exact h4
      simp [bump, if_neg hut, ih hnd h3]
theorem foldl_bump_spec :
    ∀ (tokens : List String) (acc : List (String × Nat)), (acc.map Prod.fst).Nodup →
    tokens.foldl bump acc =
      acc.map (fun p => (p.1, p.2 + tokens.count p.1)) ++
      (firstOccAux (acc.map Prod.fst) tokens).map (fun t => (t, tokens.count t)) := by
  intro tokens
  induction tokens with
  | nil =>
    intro acc _
    simp [firstOccAux]
  | cons t ts ih =>
    intro acc hnd
    rw [List.foldl_cons]
    by_cases ht : t ∈ acc.map Prod.fst
    · rw [bump_of_mem acc hnd ht]
      have hkeys : (acc.map (fun p => if p.1 = t then (p.1, p.2 + 1) else p)).map Prod.fst
          = acc.map Prod.fst := by
        rw [List.map_map]
        apply List.map_congr_left
        intro a _
        by_cases h : a.1 = t <;> simp [h]
      rw [ih _ (by rw [hkeys]; exact hnd), hkeys]
      congr 1
      · rw [List.map_map]
        apply List.map_congr_left
        intro a _
        by_cases h : a.1 = t
        · have hbe : (t == a.1) = true := by simp [h]
          simp only [Function.comp_apply, if_pos h, List.count_cons, hbe, if_true,
            Prod.mk.injEq]
          refine ⟨by trivial, by omega⟩
        · have hbe : (t == a.1) = false := by simp [Ne.symm h]
          simp [h, List.count_cons, hbe]
      · have h1 : firstOccAux (acc.map Prod.fst) (t :: ts) =
            firstOccAux (acc.map Prod.fst) ts := by
          simp [firstOccAux, ht]
        rw [h1]
        apply List.map_congr_left
        intro u hu
        have hunot : u ∉ acc.map Prod.fst := mem_firstOccAux ts _ hu
        have hne : t ≠ u := fun hc => hunot (hc ▸ ht)
        have hbe : (t == u) = false := by simp [hne]
        simp [List.count_cons, hbe]
    · rw [bump_of_not_mem acc ht]
      have hnd2 : ((acc ++ [(t, 1)]).map Prod.fst).Nodup := by
        rw [List.map_append, List.nodup_append]
        refine ⟨hnd, by simp, ?_⟩
        intro a ha hb
        simp at hb
        exact ht (hb ▸ ha)
      rw [ih _ hnd2]
      have hkeys2 : ((acc ++ [(t, 1)]).map Prod.fst) = acc.map Prod.fst ++ [t] := by simp
      rw [hkeys2]
      have hfo : firstOccAux (acc.map Prod.fst) (t :: ts) =
          t :: firstOccAux (t :: acc.map Prod.fst) ts := by
        simp [firstOccAux, ht]
      rw [hfo, List.map_append, List.append_assoc]
      congr 1
      · apply List.map_congr_left
        intro a ha
        have hne : a.1 ≠ t := fun hc => ht (hc ▸ List.mem_map_of_mem Prod.fst ha)
        have hbe : (t == a.1) = false := by simp [Ne.symm hne]
        simp [List.count_cons, hbe]
      · have hcongr : firstOccAux (acc.map Prod.fst ++ [t]) ts =
            firstOccAux (t :: acc.map Prod.fst) ts := by
          apply firstOccAux_congr
          intro x
          constructor
          · intro hx
            rcases List.mem_append.mp hx with hx | hx
            · exact List.mem_cons_of_mem _ hx
            · simp at hx
              simp [hx]
          · intro hx
            rcases List.mem_cons.mp hx with hx | hx
            · simp [hx]
            · exact List.mem_append_left _ hx
        rw [hcongr]
        have hhead : (t, 1 + ts.count t) = (t, (t :: ts).count t) := by
          have hbe : (t == t) = true := by simp
          simp only [List.count_cons, hbe, if_true, Prod.mk.injEq]
          refine ⟨by trivial, by omega⟩
        have htail : (firstOccAux (t :: acc.map Prod.fst) ts).map
              (fun u => (u, ts.count u)) =
            (firstOccAux (t :: acc.map Prod.fst) ts).map
              (fun u => (u, (t :: ts).count u)) := by
          apply List.map_congr_left
          intro u hu
          have hunot := mem_firstOccAux ts _ hu
          have hne : t ≠ u := fun hc => hunot (by simp [hc])
          have hbe : (t == u) = false := by simp [hne]
          simp [List.count_cons, hbe]
        simp only [List.map_cons, List.map_nil, List.singleton_append]
        rw [hhead, htail]

theorem termFreqs_eq (tokens : List String) :
    termFreqs tokens = (firstOccurrences tokens).map (fun t => (t, tokens.count t)) := by
  have h := foldl_bump_spec tokens [] (by simp)
  simpa [termFreqs, firstOccurrences] using h

theorem termFreqs_keys (tokens : List String) :
    (termFreqs tokens).map Prod.fst = firstOccurrences tokens := by
  rw [termFreqs_eq, List.map_map]
  have hcomp : (Prod.fst ∘ fun t => (t, tokens.count t)) = id := rfl
  rw [hcomp, List.map_id]

/-!  ## Lemmas: sparse-vector generation  -/

theorem generateSparseVector_preserve {u : String} {i : Nat}
    (tokenize : String → List String) (text : String) (s : VocabState)
    (h : vlookup u s.vocabulary = some i) :
    vlookup u ((generateSparseVector tokenize text s).2).vocabulary = some i := by
  by_cases hb : isBlank text
  · simpa [generateSparseVector, hb] using h
  · by_cases htf : termFreqs (tokenize text) = []
    · simpa [generateSparseVector, hb, htf] using h
    · simpa [generateSparseVector, hb, htf] using
        assignIndices_preserve (termFreqs (tokenize text)) s h

theorem generateSparseVector_WF (tokenize : String → List String) (text : String)
    {s : VocabState} (h : WFVocab s) :
    WFVocab ((generateSparseVector tokenize text s).2) := by
  by_cases hb : isBlank text
  · simpa [generateSparseVector, hb] using h
  · by_cases htf : termFreqs (tokenize text) = []
    · simpa [generateSparseVector, hb, htf] using h
    · simpa [generateSparseVector, hb, htf] using
        assignIndices_WF (termFreqs (tokenize text)) s h

theorem generateSparseVector_lookup_cases {u : String} {i : Nat}
    (tokenize : String → List String) (text : String) (s : VocabState)
    (h : vlookup u ((generateSparseVector tokenize text s).2).vocabulary = some i) :
    vlookup u s.vocabulary = some i ∨ s.nextIndex ≤ i := by
  by_cases hb : isBlank text
  · simp only [generateSparseVector, hb, if_true] at h
    exact Or.inl h
  · by_cases htf : termFreqs (tokenize text) = []
    · simp only [generateSparseVector, hb, htf] at h
      simp at h
      exact Or.inl h
    · simp only [generateSparseVector, hb, htf] at h
      simp only [Bool.false_eq_true, if_false, if_neg htf] at h
      exact assignIndices_lookup_cases (termFreqs (tokenize text)) s h

theorem generateSparseVector_values (tokenize : String → List String) (text : String)
    (s : VocabState) (hb : isBlank text = false) :
    ((generateSparseVector tokenize text s).1).values =
      (firstOccurrences (tokenize text)).map (fun t => (tokenize text).count t) := by
  by_cases htf : termFreqs (tokenize text) = []
  · have hfo : firstOccurrences (tokenize text) = [] := by
      have h := termFreqs_keys (tokenize text)
      rw [htf] at h
      simpa using h.symm
    simp [generateSparseVector, hb, htf, hfo]
  · simp only [generateSparseVector, hb, Bool.false_eq_true, if_false, if_neg htf]
    rw [assignIndices_values, termFreqs_eq, List.map_map]
    rfl

theorem generateSparseVector_indices_length (tokenize : String → List String)
    (text : String) (s : VocabState) (hb : isBlank text = false) :
    ((generateSparseVector tokenize text s).1).indices.length =
      (firstOccurrences (tokenize text)).length := by
  by_cases htf : termFreqs (tokenize text) = []
  · have hfo : firstOccurrences (tokenize text) = [] := by
      have h := termFreqs_keys (tokenize text)
      rw [htf] at h
      simpa using h.symm
    simp [generateSparseVector, hb, htf, hfo]
  · simp only [generateSparseVector, hb, Bool.false_eq_true, if_false, if_neg htf]
    rw [assignIndices_length, termFreqs_eq, List.length_map]

theorem generateSparseVector_parallel (tokenize : String → List String)
    (text : String) (s : VocabState) :
    ((generateSparseVector tokenize text s).1).indices.length =
      ((generateSparseVector tokenize text s).1).values.length := by
  by_cases hb : isBlank text
  · simp [generateSparseVector, hb]
  · by_cases htf : termFreqs (tokenize text) = []
    · simp [generateSparseVector, hb, htf]
    · simp only [generateSparseVector, hb, Bool.false_eq_true, if_false, if_neg htf]
      rw [assignIndices_length, assignIndices_values, List.length_map]

theorem generateSparseVector_indices_get (tokenize : String → List String)
    (text : String) (s : VocabState) (hb : isBlank text = false) (k : Nat) (w : String)
    (hk : (firstOccurrences (tokenize text))[k]? = some w) :
    ((generateSparseVector tokenize text s).1).indices[k]? =
      vlookup w ((generateSparseVector tokenize text s).2).vocabulary := by
  by_cases htf : termFreqs (tokenize text) = []
  · have hfo : firstOccurrences (tokenize text) = [] := by
      have h := termFreqs_keys (tokenize text)
      rw [htf] at h
      simpa using h.symm
    rw [hfo] at hk
    simp at hk
  · simp only [generateSparseVector, hb, Bool.false_eq_true, if_false, if_neg htf]
    apply assignIndices_get
    rw [termFreqs_eq, List.getElem?_map, hk]
    rfl

/-!  ## Lemmas: snapshot persistence  -/

theorem WF_empty : WFVocab emptyVocab := by
  refine ⟨?_, ?_, ?_⟩ <;> simp [emptyVocab]

theorem load_save_roundtrip {s : VocabState} (h : WFVocab s) (pth timestamp : String) :
    loadVocabulary (some pth) (.file (saveSnapshot s timestamp)) = s := by
  obtain ⟨hbound, _, _⟩ := h
  by_cases hz : s.nextIndex = 0
  · have hnil : s.vocabulary = [] := by
      cases hv : s.vocabulary with
      | nil => rfl
      | cons q rest =>
        have hq := hbound q (by rw [hv]; simp)
        omega
    simp [loadVocabulary, saveSnapshot, hz, hnil]
    cases s
    simp_all [emptyVocab]
  · simp [loadVocabulary, saveSnapshot, hz]

/-!  ## Lemmas: hybrid-search prefetch construction  -/

theorem buildPrefetchQueries_length (tokenize : String → List String) :
    ∀ (reqs : List HybridSearchRequest) (s : VocabState),
    ((buildPrefetchQueries tokenize reqs s).1).length = reqs.length := by
  intro reqs
  induction reqs with
  | nil => intro s; simp [buildPrefetchQueries]
  | cons r rest ih => intro s; simp [buildPrefetchQueries, ih]

theorem buildPrefetchQueries_get (tokenize : String → List String) :
    ∀ (reqs : List HybridSearchRequest) (s : VocabState) (k : Nat)
      (r : HybridSearchRequest),
    reqs[k]? = some r →
    ((buildPrefetchQueries tokenize reqs s).1)[k]? =
      some (prefetchOf tokenize r
        ((buildPrefetchQueries tokenize (reqs.take k) s).2)).1 := by
  intro reqs
  induction reqs with
  | nil => intro s k r h; simp at h
  | cons r0 rest ih =>
    intro s k r h
    match k with
    | 0 =>
      simp at h
      subst h
      simp [buildPrefetchQueries]
    | k + 1 =>
      simp only [List.getElem?_cons_succ] at h
      simp only [buildPrefetchQueries, List.take_succ_cons, List.getElem?_cons_succ]
      exact ih _ k r h

/-!  ## Lemmas: hybrid insert point construction  -/

/-- A document whose dense vector passes `insertHybrid`'s validation. -/
def validVector (d : VectorDocument) : Prop :=
  d.vector ≠ none ∧ d.vector ≠ some []

instance : DecidablePred validVector := fun d => by
  unfold validVector; infer_instance
theorem buildHybridPoints_ok (tokenize : String → List String) :
    ∀ (docs : List VectorDocument) (idx : Nat) (s : VocabState),
    (∀ d ∈ docs, validVector d) →
    ∃ ps, (buildHybridPoints tokenize idx docs s).2 = .ok ps := by
  intro docs
  induction docs with
  | nil => intro idx s _; exact ⟨[], rfl⟩
  | cons doc rest ih =>
    intro idx s h
    obtain ⟨h1, h2⟩ := h doc (by simp)
    cases hv : doc.vector with
    | none => exact absurd hv h1
    | some v =>
      have hvne : v ≠ [] := fun hc => h2 (by rw [hv, hc])
      obtain ⟨ps, hps⟩ := ih (idx + 1) ((generateSparseVector tokenize doc.content s).2)
        (fun d hd => h d (by simp [hd]))
      have hstep : (buildHybridPoints tokenize idx (doc :: rest) s).2 =
          .ok (⟨doc.id, v, (generateSparseVector tokenize doc.content s).1, doc.content,
                doc.relativePath, doc.startLine, doc.endLine, doc.fileExtension,
                doc.metadata.filter (fun kv => kv.1 != "sparseVector")⟩ :: ps) := by
        simp only [buildHybridPoints, hv, if_neg hvne, hps]
      exact ⟨_, hstep⟩

theorem buildHybridPoints_error (tokenize : String → List String) :
    ∀ (docs : List VectorDocument) (idx : Nat) (s : VocabState),
    (∃ d ∈ docs, ¬ validVector d) →
    ∃ msg, (buildHybridPoints tokenize idx docs s).2 = .error msg := by
  intro docs
  induction docs with
  | nil => intro idx s h; simp at h
  | cons doc rest ih =>
    intro idx s h
    cases hv : doc.vector with
    | none =>
      refine ⟨"Document " ++ toString idx ++ " (" ++ doc.id ++ ") has non-array vector", ?_⟩
      simp only [buildHybridPoints, hv]
    | some v =>
      by_cases hvnil : v = []
      · subst hvnil
        refine ⟨"Document " ++ toString idx ++ " (" ++ doc.id ++ ") has empty vector", ?_⟩
        simp [buildHybridPoints, hv]
      · have hrest : ∃ d ∈ rest, ¬ validVector d := by
          obtain ⟨d, hd, hbad⟩ := h
          rcases List.mem_cons.mp hd with hdd | hd2
          · subst hdd
            exfalso
            apply hbad
            refine ⟨?_, ?_⟩
            · rw [hv]
              intro hc
              cases hc
            · rw [hv]
              intro hc
              injection hc with hc2
              exact hvnil hc2
          · exact ⟨d, hd2, hbad⟩
        obtain ⟨msg, hmsg⟩ :=
          ih (idx + 1) ((generateSparseVector tokenize doc.content s).2) hrest
        refine ⟨msg, ?_⟩
        simp only [buildHybridPoints, hv, if_neg hvnil, hmsg]

/-!  ## Claim theorems  -/

/-- Claim C5: for every collection name, the existence check returns true
exactly when the collection-metadata probe succeeds, and it never raises:
any probe failure (network error, not-found, malformed response) is uniformly
normalized to the boolean false. `hasCollection` is a total boolean function
of the probe outcome, so no failure can propagate. -/
theorem hasCollection_never_raises (p : Except String CollectionInfo) :
    (hasCollection p = true ↔ ∃ info, p = .ok info) ∧
    (∀ e, p = .error e → hasCollection p = false) := by
  constructor
  · constructor
    · intro h
      cases p with
      | ok info => exact ⟨info, rfl⟩
      | error e => simp [hasCollection] at h
    · rintro ⟨info, rfl⟩
      rfl
  · rintro e rfl
    rfl

/-- Claim C5 witness at concrete probe outcomes. -/
theorem hasCollection_never_raises_witness :
    hasCollection (.error "connection refused") = false ∧
    hasCollection (.ok ⟨true⟩) = true :=
  ⟨(hasCollection_never_raises _).2 "connection refused" rfl,
   (hasCollection_never_raises _).1.mpr ⟨⟨true⟩, rfl⟩⟩

/-- Claim C8: every dense-only search call issues exactly one similarity
query; when the target collection is a hybrid collection the query is
addressed to the named dense sub-space, otherwise the plain query vector is
used. -/
theorem search_dense_subspace (collectionName : String) (queryVector : List Rat)
    (topK : Option Nat) (filt : Option QdrantFilter) :
    (search collectionName queryVector topK filt).length = 1 ∧
    (isHybridCollection collectionName = true →
      (buildSearchRequest collectionName queryVector topK filt).vector =
        .named "dense" queryVector) ∧
    (isHybridCollection collectionName = false →
      (buildSearchRequest collectionName queryVector topK filt).vector =
        .plain queryVector) := by
  refine ⟨rfl, ?_, ?_⟩
  · intro h
    simp [buildSearchRequest, h]
  · intro h
    simp [buildSearchRequest, h]

/-- Claim C8 witness at a hybrid collection name. -/
theorem search_dense_subspace_witness :
    (search "hybrid_abc123" [1, 2] none none).length = 1 ∧
    (buildSearchRequest "hybrid_abc123" [1, 2] none none).vector =
      .named "dense" [1, 2] :=
  ⟨(search_dense_subspace "hybrid_abc123" [1, 2] none none).1,
   (search_dense_subspace "hybrid_abc123" [1, 2] none none).2.1 (by decide)⟩

/-- Claim C1 (counterexample): a configuration that supplies no HNSW options
object and no quantization yields a create payload with no HNSW block at all,
not a block filled with the defaults. -/
theorem createCollection_no_hnsw_counterexample :
    (createCollection ⟨none, none⟩ 768).vectors.hnsw_config ≠
      some ⟨16, 100, 10000, false⟩ ∧
    (createCollection ⟨none, none⟩ 768).vectors.hnsw_config = none := by
  decide

/-- Claim C1 (amended): when the configuration supplies an HNSW options
object with no explicit field values and no quantization options, the create
payload carries the default HNSW block m=16, ef_construct=100,
full_scan_threshold=10000, on_disk=false and no quantization block; when no
HNSW object is supplied at all, the payload carries no HNSW block. -/
theorem createCollection_hnsw_defaults (cfg : QdrantCreateConfig) (dimension : Nat) :
    (∀ h, cfg.hnsw = some h → h.m = none → h.ef_construct = none →
      h.full_scan_threshold = none → h.on_disk = none →
      (createCollection cfg dimension).vectors.hnsw_config =
        some ⟨16, 100, 10000, false⟩) ∧
    (cfg.hnsw = none → (createCollection cfg dimension).vectors.hnsw_config = none) ∧
    (cfg.quantization = none →
      (createCollection cfg dimension).vectors.quantization_config = none) ∧
    (createCollection cfg dimension).vectors.size = dimension ∧
    (createCollection cfg dimension).vectors.distance = "Cosine" := by
  refine ⟨?_, ?_, ?_, rfl, rfl⟩
  · intro h hh hm he hf ho
    simp [createCollection, hh, buildHnswPayload, hm, he, hf, ho, jsOrNat, jsOrBool]
  · intro hh
    simp [createCollection, hh]
  · intro hq
    simp [createCollection, hq]

/-- Claim C1 witness: an empty HNSW options object and no quantization give
the default HNSW block. -/
theorem createCollection_hnsw_defaults_witness :
    (createCollection ⟨some ⟨none, none, none, none⟩, none⟩ 768).vectors.hnsw_config =
      some ⟨16, 100, 10000, false⟩ :=
  (createCollection_hnsw_defaults ⟨some ⟨none, none, none, none⟩, none⟩ 768).1
    ⟨none, none, none, none⟩ rfl rfl rfl rfl rfl

/-- Claim C9: saving a snapshot and loading it back reproduces the identical
term-to-index table and nextIndex counter for every well-formed (reachable)
store state; loading with no file present yields the empty table with counter
0; loading an unreadable or corrupt file falls back to the empty table with
counter 0 (the failure is caught inside the loader and only logged, so the
caller never fails). -/
theorem vocabulary_save_load_roundtrip :
    (∀ (s : VocabState) (pth timestamp : String), WFVocab s →
      loadVocabulary (some pth) (.file (saveSnapshot s timestamp)) = s) ∧
    (∀ pth, loadVocabulary pth .missing = emptyVocab) ∧
    (∀ pth, loadVocabulary pth .unreadable = emptyVocab) := by
  refine ⟨fun s pth ts h => load_save_roundtrip h pth ts, ?_, ?_⟩
  · intro pth
    cases pth <;> rfl
  · intro pth
    cases pth <;> rfl

/-- Claim C9 witness at a concrete two-term store. -/
theorem vocabulary_save_load_roundtrip_witness :
    loadVocabulary (some "vocab.json")
      (.file (saveSnapshot ⟨[("ab", 0), ("cd", 1)], 2⟩ "2026-10-12")) =
      (⟨[("ab", 0), ("cd", 1)], 2⟩ : VocabState) :=
  vocabulary_save_load_roundtrip.1 ⟨[("ab", 0), ("cd", 1)], 2⟩ "vocab.json"
    "2026-10-12" (by decide)

/-- Claim C3: under the retry wrapper with maxAttempts=3 and
initialDelay=1000ms, a failing attempt whose message holds a terminal marker
(already-exists or not-found), or that is the final allowed attempt, re-raises
the error immediately with no further delay; otherwise the wrapper sleeps the
current delay, doubles it and retries; an operation failing on attempts 1 and
2 and succeeding on attempt 3 returns the success value after delays of
1000ms then 2000ms; after exhausting all attempts the last observed error is
raised, never dropped. -/
theorem withRetry_spec {α : Type} (op : Nat → Except String α) :
    (∀ e, op 1 = .error e → isTerminalError e = true →
      withRetry op 3 1000 = ([], .error e)) ∧
    (∀ e1 e2, op 1 = .error e1 → isTerminalError e1 = false →
      op 2 = .error e2 → isTerminalError e2 = true →
      withRetry op 3 1000 = ([1000], .error e2)) ∧
    (∀ e1 v, op 1 = .error e1 → isTerminalError e1 = false → op 2 = .ok v →
      withRetry op 3 1000 = ([1000], .ok v)) ∧
    (∀ e1 e2 v, op 1 = .error e1 → isTerminalError e1 = false →
      op 2 = .error e2 → isTerminalError e2 = false → op 3 = .ok v →
      withRetry op 3 1000 = ([1000, 2000], .ok v)) ∧
    (∀ e1 e2 e3, op 1 = .error e1 → isTerminalError e1 = false →
      op 2 = .error e2 → isTerminalError e2 = false → op 3 = .error e3 →
      withRetry op 3 1000 = ([1000, 2000], .error e3)) := by
  have hrange : List.range' 1 3 = [1, 2, 3] := rfl
  refine ⟨?_, ?_, ?_, ?_, ?_⟩
  · intro e h1 ht
    simp [withRetry, hrange, withRetryGo, h1, ht]
  · intro e1 e2 h1 ht1 h2 ht2
    simp [withRetry, hrange, withRetryGo, h1, ht1, h2, ht2]
  · intro e1 v h1 ht1 h2
    simp [withRetry, hrange, withRetryGo, h1, ht1, h2]
  · intro e1 e2 v h1 ht1 h2 ht2 h3
    simp [withRetry, hrange, withRetryGo, h1, ht1, h2, ht2, h3]
  · intro e1 e2 e3 h1 ht1 h2 ht2 h3
    simp [withRetry, hrange, withRetryGo, h1, ht1, h2, ht2, h3]

/-- Claim C3 witness: two transient failures, then success, give the value
after delays 1000 and 2000. -/
theorem withRetry_spec_witness :
    withRetry (fun n => if n = 1 then .error "socket hang up"
      else if n = 2 then .error "socket hang up" else .ok (42 : Nat)) 3 1000 =
      ([1000, 2000], .ok 42) :=
  (withRetry_spec _).2.2.2.1 "socket hang up" "socket hang up" 42 rfl (by decide)
    rfl (by decide) rfl

/-- Claim C2 (counterexample): inserting a one-document hybrid batch whose
dense vector is empty raises the validation error, but only after the
existence probe and the collection-metadata fetch have already been issued,
so the claim that no remote call at all precedes the validation error fails. -/
theorem insertHybrid_probes_before_validation :
    InsertEvent.existenceProbe ∈
      (insertHybrid "hybrid_c" ⟨true, true, .ok (some "acknowledged"), true⟩
        (fun _ => []) [⟨"d0", some [], "", "", 0, 0, "", []⟩] emptyVocab).1 ∧
    InsertEvent.metadataFetch ∈
      (insertHybrid "hybrid_c" ⟨true, true, .ok (some "acknowledged"), true⟩
        (fun _ => []) [⟨"d0", some [], "", "", 0, 0, "", []⟩] emptyVocab).1 ∧
    (insertHybrid "hybrid_c" ⟨true, true, .ok (some "acknowledged"), true⟩
      (fun _ => []) [⟨"d0", some [], "", "", 0, 0, "", []⟩] emptyVocab).2.2 =
      .error "Document 0 (d0) has empty vector" := by
  decide

/-- Claim C2 (amended): for every hybrid insert of a non-empty batch into an
existing sparse-capable collection in which some document's dense vector is
empty or is not a sequence, a validation error is raised before the upsert is
issued - the call trace stops at the existence probe and the metadata fetch
(no upsert, no count check, no vocabulary save) and no retry is performed
(`insertHybrid` never runs under the retry wrapper) - but the existence probe
and the metadata fetch themselves do precede the validation error. -/
theorem insertHybrid_validation_before_upsert (collectionName : String)
    (w : InsertWorld) (tokenize : String → List String)
    (documents : List VectorDocument) (s : VocabState)
    (hex : w.collectionExists = true) (hsp : w.supportsSparse = true)
    (hbad : ∃ d ∈ documents, ¬ validVector d) :
    (∃ msg, (insertHybrid collectionName w tokenize documents s).2.2 = .error msg) ∧
    (insertHybrid collectionName w tokenize documents s).1 =
      [.existenceProbe, .metadataFetch] := by
  have hne : documents ≠ [] := by
    obtain ⟨d, hd, _⟩ := hbad
    intro hc
    rw [hc] at hd
    simp at hd
  obtain ⟨msg, hmsg⟩ := buildHybridPoints_error tokenize documents 0 s hbad
  constructor
  · exact ⟨msg, by simp [insertHybrid, hne, hex, hsp, hmsg]⟩
  · simp [insertHybrid, hne, hex, hsp, hmsg]

/-- Claim C2 witness: a batch with a non-array dense vector. -/
theorem insertHybrid_validation_before_upsert_witness :
    (∃ msg, (insertHybrid "hybrid_w" ⟨true, true, .ok (some "completed"), true⟩
      (fun _ => ["tok"]) [⟨"w0", none, "abc", "p", 1, 2, ".ts", []⟩] emptyVocab).2.2 =
      .error msg) ∧
    (insertHybrid "hybrid_w" ⟨true, true, .ok (some "completed"), true⟩
      (fun _ => ["tok"]) [⟨"w0", none, "abc", "p", 1, 2, ".ts", []⟩] emptyVocab).1 =
      [.existenceProbe, .metadataFetch] :=
  insertHybrid_validation_before_upsert "hybrid_w" _ _ _ _ rfl rfl
    ⟨⟨"w0", none, "abc", "p", 1, 2, ".ts", []⟩, by decide, by decide⟩

/-- Claim C10: the vocabulary save runs only after the remote upsert
completed with an acknowledged or completed status (whenever a save event is
in the trace, the upsert response was such a status and the trace ends probe,
fetch, upsert, count check, save); the insert outcome never depends on
whether the snapshot write succeeded (save errors are swallowed inside
`saveVocabulary`, which is total); and a remotely successful hybrid insert
returns success with the save event present, whatever the write outcome. -/
theorem insertHybrid_save_after_upsert :
    (∀ (collectionName : String) (w : InsertWorld) (tokenize : String → List String)
       (documents : List VectorDocument) (s : VocabState) (b : Bool),
      InsertEvent.saveVocab b ∈ (insertHybrid collectionName w tokenize documents s).1 →
      (∃ st, w.upsertResult = .ok (some st) ∧
        (st = "acknowledged" ∨ st = "completed")) ∧
      (insertHybrid collectionName w tokenize documents s).1 =
        [.existenceProbe, .metadataFetch, .upsertCall, .countCheck, .saveVocab b] ∧
      b = w.saveOk) ∧
    (∀ (collectionName : String) (ex hs : Bool) (ur : Except String (Option String))
       (tokenize : String → List String) (documents : List VectorDocument)
       (s : VocabState),
      (insertHybrid collectionName ⟨ex, hs, ur, true⟩ tokenize documents s).2.2 =
      (insertHybrid collectionName ⟨ex, hs, ur, false⟩ tokenize documents s).2.2) ∧
    (∀ (collectionName : String) (w : InsertWorld) (tokenize : String → List String)
       (documents : List VectorDocument) (s : VocabState) (st : String),
      documents ≠ [] → w.collectionExists = true → w.supportsSparse = true →
      (∀ d ∈ documents, validVector d) →
      w.upsertResult = .ok (some st) → (st = "acknowledged" ∨ st = "completed") →
      (insertHybrid collectionName w tokenize documents s).2.2 = .ok () ∧
      InsertEvent.saveVocab w.saveOk ∈
        (insertHybrid collectionName w tokenize documents s).1) := by
  refine ⟨?_, ?_, ?_⟩
  · intro c w tok docs s b hmem
    by_cases hd : docs = []
    · simp [insertHybrid, hd] at hmem
    · by_cases hex : w.collectionExists = true
      · by_cases hsp : w.supportsSparse = true
        · cases hbp : (buildHybridPoints tok 0 docs s).2 with
          | error msg => simp [insertHybrid, hd, hex, hsp, hbp] at hmem
          | ok ps =>
            cases hur : w.upsertResult with
            | error e => simp [insertHybrid, hd, hex, hsp, hbp, hur] at hmem
            | ok st =>
              by_cases hst : st = some "acknowledged" ∨ st = some "completed"
              · have htr : (insertHybrid c w tok docs s).1 =
                    [.existenceProbe, .metadataFetch, .upsertCall, .countCheck,
                     .saveVocab w.saveOk] := by
                  simp [insertHybrid, hd, hex, hsp, hbp, hur, hst]
                rw [htr] at hmem
                simp at hmem
                subst hmem
                refine ⟨?_, htr, rfl⟩
                rcases hst with hst | hst
                · exact ⟨"acknowledged", by rw [hst], Or.inl rfl⟩
                · exact ⟨"completed", by rw [hst], Or.inr rfl⟩
              · simp [insertHybrid, hd, hex, hsp, hbp, hur, hst] at hmem
        · have hsp2 : w.supportsSparse = false := by
            cases hcc : w.supportsSparse
            · rfl
            · exact absurd hcc hsp
          simp [insertHybrid, hd, hex, hsp2] at hmem
      · have hex2 : w.collectionExists = false := by
          cases hcc : w.collectionExists
          · rfl
          · exact absurd hcc hex
        simp [insertHybrid, hd, hex2] at hmem
  · intro c ex hs ur tok docs s
    by_cases hd : docs = []
    · simp [insertHybrid, hd]
    · cases ex
      · simp [insertHybrid, hd]
      · cases hs
        · simp [insertHybrid, hd]
        · cases hbp : (buildHybridPoints tok 0 docs s).2 with
          | error msg => simp [insertHybrid, hd, hbp]
          | ok ps =>
            cases ur with
            | error e => simp [insertHybrid, hd, hbp]
            | ok st =>
              by_cases hst : st = some "acknowledged" ∨ st = some "completed" <;>
                simp [insertHybrid, hd, hbp, hst]
  · intro c w tok docs s st hd hex hsp hvalid hur hst
    obtain ⟨ps, hps⟩ := buildHybridPoints_ok tok docs 0 s hvalid
    constructor
    · simp [insertHybrid, hd, hex, hsp, hps, hur, hst]
    · simp [insertHybrid, hd, hex, hsp, hps, hur, hst]

/-- Claim C10 witness: a valid one-document batch, acknowledged upsert, and a
failing snapshot write still return success with the save event last. -/
theorem insertHybrid_save_after_upsert_witness :
    (insertHybrid "hybrid_w2" ⟨true, true, .ok (some "acknowledged"), false⟩
      (fun _ => ["ab"]) [⟨"w1", some [1], "ab", "p", 1, 2, ".ts", []⟩]
      emptyVocab).2.2 = .ok () ∧
    InsertEvent.saveVocab false ∈
      (insertHybrid "hybrid_w2" ⟨true, true, .ok (some "acknowledged"), false⟩
        (fun _ => ["ab"]) [⟨"w1", some [1], "ab", "p", 1, 2, ".ts", []⟩]
        emptyVocab).1 :=
  insertHybrid_save_after_upsert.2.2 "hybrid_w2" _ _ _ _ "acknowledged"
    (by decide) rfl rfl (by decide) rfl (Or.inl rfl)

/-- Claim C6: encode returns, for empty or whitespace-only text, a sparse
vector with both sequences of length 0 without invoking the tokenizer (the
result is identical for every tokenizer); otherwise exactly one
(index, frequency) pair per distinct normalized token of the tokenizer
output, where the value is the raw term frequency (no IDF) and the pair order
is insertion order of first occurrence in the token stream; the indices and
values sequences always have equal length. -/
theorem generateSparseVector_spec (text : String) (s : VocabState) :
    (isBlank text = true → ∀ tokenize,
      generateSparseVector tokenize text s = (⟨[], []⟩, s)) ∧
    (∀ tokenize, isBlank text = false →
      ((generateSparseVector tokenize text s).1).values =
        (firstOccurrences (tokenize text)).map (fun t => (tokenize text).count t) ∧
      ((generateSparseVector tokenize text s).1).indices.length =
        (firstOccurrences (tokenize text)).length ∧
      (∀ (k : Nat) (w : String), (firstOccurrences (tokenize text))[k]? = some w →
        ((generateSparseVector tokenize text s).1).indices[k]? =
          vlookup w ((generateSparseVector tokenize text s).2).vocabulary)) ∧
    (∀ tokenize,
      ((generateSparseVector tokenize text s).1).indices.length =
        ((generateSparseVector tokenize text s).1).values.length) := by
  refine ⟨?_, ?_, fun tokenize => generateSparseVector_parallel tokenize text s⟩
  · intro hb tokenize
    simp [generateSparseVector, hb]
  · intro tokenize hb
    exact ⟨generateSparseVector_values tokenize text s hb,
      generateSparseVector_indices_length tokenize text s hb,
      fun k w hk => generateSparseVector_indices_get tokenize text s hb k w hk⟩

/-- Claim C6 witness: raw frequencies in first-occurrence order on a concrete
token stream, and the blank short-circuit. -/
theorem generateSparseVector_spec_witness :
    ((generateSparseVector (fun _ => ["ab", "cd", "ab"]) "ab cd ab"
      emptyVocab).1).values = [2, 1] ∧
    generateSparseVector (fun _ => ["xy"]) "   " emptyVocab = (⟨[], []⟩, emptyVocab) := by
  constructor
  · have h := ((generateSparseVector_spec "ab cd ab" emptyVocab).2.1
      (fun _ => ["ab", "cd", "ab"]) (by decide)).1
    rw [h]
    decide
  · exact (generateSparseVector_spec "   " emptyVocab).1 (by decide) _

/-- Claim C4: for every well-formed (reachable) vocabulary store state and
term, once the term has been assigned an index, a later encode leaves that
index unchanged (lookup preserved, and the pair emitted for the term at its
first-occurrence position carries the same index); no index is ever assigned
to two different terms; an index below the old counter can only belong to its
original term (never reassigned or reused); and a save/load round trip
reproduces the state, so the stability also survives a reload from disk. -/
theorem vocabulary_index_stable (tokenize : String → List String) (text : String)
    (s : VocabState) (hWF : WFVocab s) :
    WFVocab ((generateSparseVector tokenize text s).2) ∧
    (∀ w i, vlookup w s.vocabulary = some i →
      vlookup w ((generateSparseVector tokenize text s).2).vocabulary = some i) ∧
    (∀ w w2 i,
      vlookup w ((generateSparseVector tokenize text s).2).vocabulary = some i →
      vlookup w2 ((generateSparseVector tokenize text s).2).vocabulary = some i →
      w = w2) ∧
    (∀ w i, vlookup w ((generateSparseVector tokenize text s).2).vocabulary = some i →
      i < s.nextIndex → vlookup w s.vocabulary = some i) ∧
    (∀ (k : Nat) (w : String) (i : Nat), isBlank text = false →
      vlookup w s.vocabulary = some i →
      (firstOccurrences (tokenize text))[k]? = some w →
      ((generateSparseVector tokenize text s).1).indices[k]? = some i) ∧
    (∀ pth timestamp, loadVocabulary (some pth)
        (.file (saveSnapshot ((generateSparseVector tokenize text s).2) timestamp)) =
      (generateSparseVector tokenize text s).2) := by
  have hWF2 := generateSparseVector_WF tokenize text hWF
  refine ⟨hWF2, ?_, ?_, ?_, ?_, ?_⟩
  · intro w i h
    exact generateSparseVector_preserve tokenize text s h
  · intro w w2 i h1 h2
    obtain ⟨_, _, hsnd⟩ := hWF2
    have hm1 := vlookup_mem h1
    have hm2 := vlookup_mem h2
    have hpair := List.inj_on_of_nodup_map hsnd hm1 hm2 rfl
    exact congrArg Prod.fst hpair
  · intro w i h hlt
    rcases generateSparseVector_lookup_cases tokenize text s h with h2 | h2
    · exact h2
    · omega
  · intro k w i hb hw hk
    have h1 := generateSparseVector_indices_get tokenize text s hb k w hk
    rw [h1]
    exact generateSparseVector_preserve tokenize text s hw
  · intro pth ts
    exact load_save_roundtrip hWF2 pth ts

/-- Claim C4 witness: a term indexed 0 keeps index 0 across a later encode. -/
theorem vocabulary_index_stable_witness :
    vlookup "ab" ((generateSparseVector (fun _ => ["ab", "cd"]) "ab cd"
      ⟨[("ab", 0)], 1⟩).2).vocabulary = some 0 :=
  (vocabulary_index_stable (fun _ => ["ab", "cd"]) "ab cd" ⟨[("ab", 0)], 1⟩
    (by decide)).2.1 "ab" 0 (by decide)

/-- Claim C7: for every non-empty hybrid-search request list, each per-field
prefetch (dense and lexical alike) requests a candidate pool of size
max(requestedLimit*3, 100); a dense request's query vector is passed through
unchanged, a lexical request's textual payload is first encoded into a sparse
vector (with the tokenizer state threaded through the preceding requests);
all prefetches are submitted as one fused query using reciprocal-rank fusion
with the caller's final result limit (default 10) and any caller-supplied
filter predicate carried through unchanged. -/
theorem hybridSearch_query_spec (tokenize : String → List String)
    (searchRequests : List HybridSearchRequest) (optLimit : Option Nat)
    (optFilter : Option QdrantFilter) (s : VocabState)
    (hne : searchRequests ≠ []) :
    ∃ qr, (hybridSearch tokenize searchRequests optLimit optFilter s).1 = some qr ∧
      qr.fusion = "rrf" ∧
      (optLimit = none → qr.limit = 10) ∧
      (∀ l, optLimit = some l → 0 < l → qr.limit = l) ∧
      qr.filter = optFilter ∧
      qr.prefetch.length = searchRequests.length ∧
      (∀ (k : Nat) (r : HybridSearchRequest), searchRequests[k]? = some r →
        ∃ p : PrefetchQuery, qr.prefetch[k]? = some p ∧
          p.limit = max (r.limit * 3) 100 ∧
          p.with_payload = true ∧
          (∀ v, isDenseVector r = true → r.data = .vec v →
            p.query = .dense v ∧ p.usingName = "dense") ∧
          (isDenseVector r = false →
            p.query = .sparse (generateSparseVector tokenize (textDataOf r.data)
              ((buildPrefetchQueries tokenize (searchRequests.take k) s).2)).1 ∧
            p.usingName = "sparse")) := by
  refine ⟨⟨(buildPrefetchQueries tokenize searchRequests s).1, "rrf",
    jsOrNat optLimit 10, true, optFilter⟩, ?_, rfl, ?_, ?_, rfl, ?_, ?_⟩
  · simp [hybridSearch, hne]
  · intro h
    simp [jsOrNat, h]
  · intro l h hl
    simp only [h, jsOrNat]
    rw [if_neg (by omega)]
  · exact buildPrefetchQueries_length tokenize searchRequests s
  · intro k r hk
    refine ⟨(prefetchOf tokenize r
      ((buildPrefetchQueries tokenize (searchRequests.take k) s).2)).1,
      buildPrefetchQueries_get tokenize searchRequests s k r hk, ?_, ?_, ?_, ?_⟩
    · by_cases hdv : isDenseVector r <;> simp [prefetchOf, hdv]
    · by_cases hdv : isDenseVector r <;> simp [prefetchOf, hdv]
    · intro v hdv hveq
      simp [prefetchOf, hdv, denseDataOf, hveq]
    · intro hdv
      simp [prefetchOf, hdv]

/-- Claim C7 witness: one dense request with default options. -/
theorem hybridSearch_query_spec_witness :
    ∃ qr, (hybridSearch (fun _ => ["ab"]) [⟨"dense", .vec [1, 2], 5⟩] none none
      emptyVocab).1 = some qr ∧ qr.fusion = "rrf" ∧ qr.limit = 10 ∧
      qr.prefetch.length = 1 := by
  obtain ⟨qr, h1, h2, h3, _, _, h6, _⟩ :=
    hybridSearch_query_spec (fun _ => ["ab"]) [⟨"dense", .vec [1, 2], 5⟩] none none
      emptyVocab (by simp)
  exact ⟨qr, h1, h2, h3 rfl, by rw [h6]; rfl⟩
